import Mathlib

/-!
Shallow embedding of the preact-custom-element bridge (src/index.js, the
full-featured variant with slot/context/DOM-node support).

JavaScript machine integers, strings and objects are modelled as follows:
strings are Lean strings; numbers are modelled as integers (the claims only
use identity and decimal stringification of numbers); objects and functions
are opaque values carrying an identity tag; null and undefined are distinct
values.  Object property tables (the element's props and slots records) are
association lists in insertion order, matching JavaScript object key
semantics for the non-integer-like keys that occur here.
-/

/-- Decides whether a character is an ASCII uppercase letter, the character
class written as A-Z in the source regexes. -/
def isUpperAZ (c : Char) : Bool := 65 ≤ c.toNat && c.toNat ≤ 90

/-- Decides whether a character is an ASCII lowercase letter, the character
class written as a-z in the source regexes. -/
def isLowerAZ (c : Char) : Bool := 97 ≤ c.toNat && c.toNat ≤ 122

/-- Decides whether a character matches the regex word class: ASCII letter,
digit or underscore. -/
def isWordChar (c : Char) : Bool :=
  isUpperAZ c || isLowerAZ c || (48 ≤ c.toNat && c.toNat ≤ 57) || c = '_'

/-- Length of the maximal prefix of ASCII uppercase letters. -/
def upperRunLen : List Char → Nat
  | [] => 0
  | c :: cs => if isUpperAZ c then 1 + upperRunLen cs else 0

/-- Scanner for the global regex replace in toKebabCase.

The source replaces, globally, the pattern "[A-Z]+(?![a-z])|[A-Z]" using the
replacer (dollar, c) => (c ? "-" : "") + dollar.toLowerCase().  The pattern
has no capture group, so the replacer's second argument is the match OFFSET:
a hyphen is prepended exactly when the match does not start at position 0.
Match selection at a position whose uppercase run has length r:
  - if the run is followed by a lowercase letter and r is at least 2, the
    greedy first alternative backtracks to the first r - 1 letters (the last
    run letter satisfies the negative lookahead);
  - if the run is followed by a lowercase letter and r = 1, the first
    alternative fails entirely and the second alternative matches the single
    letter (it has no lookahead);
  - otherwise the first alternative matches the whole run.
The matched letters are lowercased and scanning resumes after the match.
The first argument is fuel bounding the recursion; every step consumes at
least one character, so fuel equal to the list length suffices. -/
def kebabGo : Nat → Bool → List Char → List Char
  | 0, _, _ => []
  | _ + 1, _, [] => []
  | fuel + 1, first, c :: cs =>
    if isUpperAZ c then
      let r := 1 + upperRunLen cs
      let followedByLower :=
        match (c :: cs).drop r with
        | [] => false
        | d :: _ => isLowerAZ d
      let m := if followedByLower && decide (2 ≤ r) then r - 1 else r
      (if first then [] else ['-']) ++ ((c :: cs).take m).map Char.toLower
        ++ kebabGo fuel false ((c :: cs).drop m)
    else c :: kebabGo fuel false cs

/-- Embedding of toKebabCase from the source: the global replace of
"[A-Z]+(?![a-z])|[A-Z]" described at kebabGo. -/
def toKebabCase (s : String) : String := String.mk (kebabGo s.data.length true s.data)

/-- Scanner for the global regex replace in toCamelCase: the pattern
"-(\w)" with replacer (underscore, c) => c ? c.toUpperCase() : "".  The
captured character is a single word character, hence a nonempty string,
which is always truthy in JavaScript (including "0"), so the replacement is
always the uppercased character. -/
def camelGo : List Char → List Char
  | [] => []
  | '-' :: c :: cs =>
    if isWordChar c then Char.toUpper c :: camelGo cs else '-' :: camelGo (c :: cs)
  | c :: cs => c :: camelGo cs

/-- Embedding of toCamelCase from the source. -/
def toCamelCase (s : String) : String := String.mk (camelGo s.data)

/-- A live DOM node as seen by the bridge: a text node with its data, an
element node with tag name, attribute list (in document order, possibly
including a slot attribute) and child nodes, or any other node kind
(comment, processing instruction, ...). -/
inductive DomNode where
  | text (data : String)
  | element (tagName : String) (attrs : List (String × String)) (childNodes : List DomNode)
  | other

mutual
/-- A JavaScript value flowing through the bridge.  vObj models any
non-primitive value that is neither a DOM node nor a vnode (functions,
plain objects); its Nat tag models reference identity. -/
inductive JSVal where
  | vStr (s : String)
  | vBool (b : Bool)
  | vNum (n : Int)
  | vNull
  | vUndefined
  | vObj (id : Nat)
  | vDom (d : DomNode)
  | vVNode (t : VTree)
  | vArr (xs : List JSVal)

/-- A renderable (vnode) tree as built by this bridge: text, a plain
element (as produced by nodeToVNode, whose children are raw JavaScript
values: strings, vnodes or null), a Slot placeholder with its optional
name prop, the wrapped component applied to a props record, and the
ContextProvider wrapper carrying the discovered context. -/
inductive VTree where
  | vtext (s : String)
  | velem (tag : String) (props : List (String × String)) (children : List JSVal)
  | vslot (name : Option String)
  | vcomponent (props : List (String × JSVal))
  | vprovider (context : JSVal) (child : VTree)
end

/-- Strict equality (the JavaScript triple-equals) between the values the
bridge compares.  Primitives compare by value, opaque objects by their
identity tag.  DOM nodes, vnodes and arrays compare as references; in every
comparison the bridge performs, the two sides are distinct objects (each
normalization allocates a fresh vnode and DOM references are never stored),
so reference equality is modelled as false there. -/
def jsEq : JSVal → JSVal → Bool
  | .vStr a, .vStr b => a = b
  | .vBool a, .vBool b => a = b
  | .vNum a, .vNum b => a = b
  | .vNull, .vNull => true
  | .vUndefined, .vUndefined => true
  | .vObj i, .vObj j => i = j
  | _, _ => false

/-- Embedding of isPrimitive from the source: true on null and undefined
(loose equality with null) and on values of typeof string, boolean or
number. -/
def isPrimitive : JSVal → Bool
  | .vStr _ => true
  | .vBool _ => true
  | .vNum _ => true
  | .vNull => true
  | .vUndefined => true
  | _ => false

/-- JavaScript stringification as performed by setAttribute on the value
being written.  Only primitives reach setAttribute in the source (the
accessor guards with isPrimitive); the remaining branches are given their
JavaScript default conversions for totality. -/
def jsToString : JSVal → String
  | .vStr s => s
  | .vBool b => if b then "true" else "false"
  | .vNum n => toString n
  | .vNull => "null"
  | .vUndefined => "undefined"
  | .vObj _ => "[object Object]"
  | .vDom _ => ""
  | .vVNode _ => ""
  | .vArr _ => ""

/-- Association-list read for string-keyed records, first match. -/
def getKey : List (String × JSVal) → String → Option JSVal
  | [], _ => none
  | (k, v) :: rest, key => if k = key then some v else getKey rest key

/-- Association-list write for string-keyed records: updates the value in
place when the key is present (JavaScript keeps the original key position),
otherwise appends the new key at the end (insertion order). -/
def setKey : List (String × JSVal) → String → JSVal → List (String × JSVal)
  | [], key, v => [(key, v)]
  | (k, w) :: rest, key, v =>
    if k = key then (k, v) :: rest else (k, w) :: setKey rest key v

/-- Attribute-table read (getAttribute, with none for an absent attribute). -/
def getAttr : List (String × String) → String → Option String
  | [], _ => none
  | (k, v) :: rest, key => if k = key then some v else getAttr rest key

/-- Attribute-table write (setAttribute's storage effect). -/
def setAttr : List (String × String) → String → String → List (String × String)
  | [], key, v => [(key, v)]
  | (k, w) :: rest, key, v =>
    if k = key then (k, v) :: rest else (k, w) :: setAttr rest key v

/-- Lower-casing of a tag name (nodeName.toLowerCase as used by nodeToVNode;
tag names are ASCII). -/
def lowerStr (s : String) : String := String.mk (s.data.map Char.toLower)

mutual
/-- Embedding of nodeToVNode from the source: a text node projects to its
data string, any node that is neither text nor element projects to null,
and an element node projects to a vnode whose tag is the lower-cased node
name, whose props are every attribute except the slot attribute, and whose
children are the recursive projection of every child node in document
order. -/
def nodeToVNode : DomNode → JSVal
  | .text data => .vStr data
  | .other => .vNull
  | .element tagName attrs childNodes =>
    .vVNode (.velem (lowerStr tagName) (attrs.filter (fun a => a.1 ≠ "slot"))
      (nodesToVNodes childNodes))

/-- Projection of a child-node list, one entry per child (including nulls
for skipped node kinds), in document order. -/
def nodesToVNodes : List DomNode → List JSVal
  | [] => []
  | c :: cs => nodeToVNode c :: nodesToVNodes cs
end

/-- Embedding of isDomElement from the source: true exactly on text and
element nodes. -/
def isDomElement : DomNode → Bool
  | .text _ => true
  | .element _ _ _ => true
  | .other => false

/-- The slot IDL property of a child node, as read by getSlots.  Element
nodes reflect their slot attribute (empty string when absent); text nodes
have no slot property, so reading it yields undefined (modelled as none). -/
def childSlotProp : DomNode → Option String
  | .element _ attrs _ => some ((getAttr attrs "slot").getD "")
  | _ => none

/-- The object key under which getSlots files a child: JavaScript coerces a
computed property key to a string, and the undefined slot property of a
text node coerces to the key "undefined". -/
def slotKeyOf (d : DomNode) : String := (childSlotProp d).getD "undefined"

/-- The name prop handed to the Slot placeholder: slotName or undefined, so
the empty string (and the undefined slot property of a text node) becomes
an absent name. -/
def slotNameProp (d : DomNode) : Option String :=
  match childSlotProp d with
  | none => none
  | some s => if s = "" then none else some s

/-- The Slot placeholder vnode created for one qualifying child. -/
def slotPlaceholder (d : DomNode) : VTree := .vslot (slotNameProp d)

/-- Appends a placeholder to the group of the given key, creating the group
at the end when the key is new (matching object insertion order). -/
def addSlot : List (String × List VTree) → String → VTree → List (String × List VTree)
  | [], key, v => [(key, [v])]
  | (k, l) :: rest, key, v =>
    if k = key then (k, l ++ [v]) :: rest else (k, l) :: addSlot rest key v

/-- Group-table read, first match. -/
def lookupGroup : List (String × List VTree) → String → Option (List VTree)
  | [], _ => none
  | (k, l) :: rest, key => if k = key then some l else lookupGroup rest key

/-- Left-to-right traversal of the child list, accumulating the slot
groups, as the for-of loop of getSlots does. -/
def getSlotsGo (acc : List (String × List VTree)) : List DomNode → List (String × List VTree)
  | [] => acc
  | c :: cs =>
    if isDomElement c then getSlotsGo (addSlot acc (slotKeyOf c) (slotPlaceholder c)) cs
    else getSlotsGo acc cs

/-- Embedding of getSlots from the source: scans the direct children,
skips node kinds that are neither text nor element, and groups one fresh
Slot placeholder per qualifying child under the child's slot key. -/
def getSlots (childNodes : List DomNode) : List (String × List VTree) :=
  getSlotsGo [] childNodes

/-- The props value for one slot group: an array of the group's
placeholders, or undefined for an absent group (the destructured children
binding when there is no default group). -/
def groupToVal : Option (List VTree) → JSVal
  | none => .vUndefined
  | some l => .vArr (l.map .vVNode)

/-- Embedding of the slots record built by connectedCallback: the
destructuring pulls the empty-string group out as children and spreads the
remaining groups, so the record starts with the children key bound to the
default group (undefined when absent) followed by every other group under
its own key in group order. -/
def slotsRecord (childNodes : List DomNode) : List (String × JSVal) :=
  let g := getSlots childNodes
  (g.filter (fun p => p.1 ≠ "")).foldl
    (fun m p => setKey m p.1 (.vArr (p.2.map .vVNode)))
    [("children", groupToVal (lookupGroup g ""))]

/-- Record merge by spreading, as in the object literal that spreads props
then slots: starts from the first record and writes every entry of the
second over it. -/
def mergeRecords (a b : List (String × JSVal)) : List (String × JSVal) :=
  b.foldl (fun m p => setKey m p.1 p.2) a

/-- Per-instance element state: the props record, the slots record, the
element's attribute table, the stored vnode tree (none before first
connection and after disconnection), and the log of render calls into the
render root (none logs the null render issued on disconnect). -/
structure ElementState where
  props : List (String × JSVal)
  slots : List (String × JSVal)
  attrs : List (String × String)
  vdom : Option VTree
  renderLog : List (Option VTree)

/-- The state of a freshly constructed element: empty props and slots, no
stored tree, nothing rendered. -/
def freshEl : ElementState :=
  { props := [], slots := [], attrs := [], vdom := none, renderLog := [] }

/-- Value normalization at the top of attributeChangedCallback: null and
undefined become undefined; a text or element DOM node is projected through
nodeToVNode; everything else passes through. -/
def normalizeVal : JSVal → JSVal
  | .vNull => .vUndefined
  | .vUndefined => .vUndefined
  | .vDom d => if isDomElement d then nodeToVNode d else .vDom d
  | v => v

/-- Embedding of cloneElement(vdom, null, child) as used by
attributeChangedCallback: the stored tree is always the ContextProvider
wrapper, and cloning with null props keeps its context while replacing its
child. -/
def cloneWithChild : VTree → VTree → VTree
  | .vprovider context _, child => .vprovider context child
  | t, _ => t

/-- Embedding of attributeChangedCallback from the source: normalize the
new value, stop when it strictly equals the old value, otherwise store it
under both the camel-case form of the name and the name itself; then, if no
tree is stored (never connected or disconnected), stop without rendering,
else clone the ContextProvider with a fresh component invocation over the
merged props and slots and render it. -/
def attributeChangedCallback (s : ElementState) (name : String)
    (oldVal newVal0 : JSVal) : ElementState :=
  let newVal := normalizeVal newVal0
  if jsEq newVal oldVal then s
  else
    let props := setKey (setKey s.props (toCamelCase name) newVal) name newVal
    match s.vdom with
    | none => { s with props := props }
    | some t =>
      let t2 := cloneWithChild t (.vcomponent (mergeRecords props s.slots))
      { s with props := props, vdom := some t2, renderLog := s.renderLog ++ [some t2] }

/-- The platform's behavior for setAttribute on an observed attribute: the
attribute table is updated and then the attribute-changed notification is
delivered with the previous attribute value (null when absent) and the new
string. -/
def platformSetAttribute (s : ElementState) (attrName value : String) : ElementState :=
  let oldAttr := match getAttr s.attrs attrName with
    | none => JSVal.vNull
    | some x => JSVal.vStr x
  attributeChangedCallback { s with attrs := setAttr s.attrs attrName value }
    attrName oldAttr (.vStr value)

/-- Nullish coalescing with null as applied to the stored value in the
accessor setter: an absent, undefined or null stored value coalesces to
null. -/
def coalesceNull : Option JSVal → JSVal
  | none => .vNull
  | some .vUndefined => .vNull
  | some .vNull => .vNull
  | some v => v

/-- Embedding of the generated accessor setter for a recognized name: for a
primitive value, stop when it strictly equals the stored value coalesced to
null, else reflect it to the kebab-case attribute (the platform then
delivers the attribute-changed notification); for a non-primitive value,
invoke the attribute-changed path directly with the kebab-case name. -/
def setProperty (s : ElementState) (name : String) (v : JSVal) : ElementState :=
  let oldVal := coalesceNull (getKey s.props name)
  if isPrimitive v then
    if jsEq oldVal v then s
    else platformSetAttribute s (toKebabCase name) (jsToString v)
  else attributeChangedCallback s (toKebabCase name) oldVal v

/-- Embedding of the generated accessor getter: the stored value for the
name, undefined when absent. -/
def getProperty (s : ElementState) (name : String) : JSVal :=
  (getKey s.props name).getD .vUndefined

/-- Embedding of disconnectedCallback from the source: reset the props and
slots records, render the null tree into the render root and clear the
stored tree. -/
def disconnectedCallback (s : ElementState) : ElementState :=
  { s with props := [], slots := [], vdom := none, renderLog := s.renderLog ++ [none] }

/-- The context-request event as synthesized by connectedCallback, with its
dispatch options and its initially empty mutable detail payload. -/
structure CtxEvent where
  composed : Bool
  bubbles : Bool
  cancelable : Bool
  detailContext : Option JSVal

/-- The event object built by connectedCallback: composed (shadow
piercing), bubbling, cancelable, with an empty detail. -/
def ctxEventInit : CtxEvent :=
  { composed := true, bubbles := true, cancelable := true, detailContext := none }

/-- Bubbling dispatch of the context event along the chain of ancestors of
the render root, nearest first.  An entry carries some context exactly when
a mounted Slot placeholder has its listener attached there, closing over
that placeholder's context.  The listener stops propagation and writes its
context into the mutable detail, so dispatch ends at the first listening
ancestor; ancestors without a listener pass the event upward. -/
def bubbleCtx (e : CtxEvent) : List (Option JSVal) → CtxEvent
  | [] => e
  | none :: rest => bubbleCtx e rest
  | some context :: _ => { e with detailContext := some context }

/-- The context discovered on connection: after dispatch returns, the
instance reads the detail's context field, which is undefined when no
listener intercepted the event. -/
def connectedContext (chain : List (Option JSVal)) : JSVal :=
  ((bubbleCtx ctxEventInit chain).detailContext).getD .vUndefined

/-- Embedding of connectedCallback from the source: build the slots record
from the direct children, discover the context by dispatching the context
event along the given ancestor chain, build the ContextProvider tree over a
fresh component invocation with the merged props and slots, store it and
render it. -/
def connectedCallback (s : ElementState) (childNodes : List DomNode)
    (chain : List (Option JSVal)) : ElementState :=
  let slots := slotsRecord childNodes
  let context := connectedContext chain
  let t := VTree.vprovider context (.vcomponent (mergeRecords s.props slots))
  { s with slots := slots, vdom := some t, renderLog := s.renderLog ++ [some t] }

/-- Order-preserving deduplication as performed by Array.from over a Set:
keeps the first occurrence of every element. -/
def uniqFirst (seen : List String) : List String → List String
  | [] => []
  | x :: xs => if x ∈ seen then uniqFirst seen xs else x :: uniqFirst (x :: seen) xs

/-- Embedding of the registration-time prop-name computation: the supplied
names are replaced by the deduplicated union of their camel-case and
kebab-case forms. -/
def effectivePropNames (supplied : List String) : List String :=
  uniqFirst [] (supplied.map toCamelCase ++ supplied.map toKebabCase)

/-- Embedding of the registration-time observed-attribute computation: the
deduplicated kebab-case forms of the effective prop names. -/
def observedAttributes (supplied : List String) : List String :=
  uniqFirst [] ((effectivePropNames supplied).map toKebabCase)

/-- Reading a key just written returns the written value. -/
theorem getKey_setKey_self (m : List (String × JSVal)) (k : String) (v : JSVal) :
    getKey (setKey m k v) k = some v := by
  induction m with
  | nil => simp [setKey, getKey]
  | cons p rest ih =>
    by_cases h : p.1 = k
    · simp [setKey, getKey, h]
    · simp [setKey, getKey, h, ih]

/-- Writing one key leaves every other key unchanged. -/
theorem getKey_setKey_ne (m : List (String × JSVal)) (k k2 : String) (v : JSVal)
    (h : k ≠ k2) : getKey (setKey m k v) k2 = getKey m k2 := by
  induction m with
  | nil => simp [setKey, getKey, h]
  | cons p rest ih =>
    by_cases hp : p.1 = k
    · simp [setKey, getKey, hp, h]
    · simp [setKey, getKey, hp, ih]

/-- Reading an attribute just written returns the written string. -/
theorem getAttr_setAttr_self (l : List (String × String)) (k v : String) :
    getAttr (setAttr l k v) k = some v := by
  induction l with
  | nil => simp [setAttr, getAttr]
  | cons p rest ih =>
    by_cases h : p.1 = k
    · simp [setAttr, getAttr, h]
    · simp [setAttr, getAttr, h, ih]

/-- Rewriting an attribute with its current value leaves the attribute
table unchanged. -/
theorem setAttr_self_of_getAttr (l : List (String × String)) (k x : String)
    (h : getAttr l k = some x) : setAttr l k x = l := by
  induction l with
  | nil => simp [getAttr] at h
  | cons p rest ih =>
    by_cases hp : p.1 = k
    · simp [getAttr, hp] at h
      simp only [setAttr, hp, if_pos rfl]
      rw [show ((k, x) : String × String) = p from Prod.ext hp.symm h.symm]
      simp
    · simp [getAttr, hp] at h
      simp [setAttr, hp, ih h]

/-- The attribute-changed path never touches the attribute table. -/
theorem attributeChangedCallback_attrs (s : ElementState) (name : String)
    (oldVal newVal : JSVal) :
    (attributeChangedCallback s name oldVal newVal).attrs = s.attrs := by
  unfold attributeChangedCallback
  by_cases h : jsEq (normalizeVal newVal) oldVal
  · simp [h]
  · simp [h]
    cases s.vdom <;> simp

/-- When the normalized new value differs from the old value, the
attribute-changed path stores it under both the camel-case form of the
delivered name and the delivered name itself. -/
theorem attributeChangedCallback_stores (s : ElementState) (name : String)
    (oldVal newVal : JSVal) (h : jsEq (normalizeVal newVal) oldVal = false) :
    getKey (attributeChangedCallback s name oldVal newVal).props (toCamelCase name)
        = some (normalizeVal newVal)
    ∧ getKey (attributeChangedCallback s name oldVal newVal).props name
        = some (normalizeVal newVal) := by
  unfold attributeChangedCallback
  simp only [h, Bool.false_eq_true, if_false]
  constructor
  · cases s.vdom <;>
      · simp only []
        by_cases hc : toCamelCase name = name
        · rw [hc]
          exact getKey_setKey_self _ _ _
        · rw [getKey_setKey_ne _ _ _ _ (fun he => hc he.symm)]
          exact getKey_setKey_self _ _ _
  · cases s.vdom <;> exact getKey_setKey_self _ _ _

/-- When the normalized new value equals the old value, the
attribute-changed path is the identity. -/
theorem attributeChangedCallback_noop (s : ElementState) (name : String)
    (oldVal newVal : JSVal) (h : jsEq (normalizeVal newVal) oldVal = true) :
    attributeChangedCallback s name oldVal newVal = s := by
  unfold attributeChangedCallback
  simp [h]

/-- Before first connection (and after disconnection) the attribute-changed
path stores without rendering: the render log and the absent tree are
untouched. -/
theorem attributeChangedCallback_preconnect (s : ElementState) (name : String)
    (oldVal newVal : JSVal) (h : s.vdom = none) :
    (attributeChangedCallback s name oldVal newVal).renderLog = s.renderLog
    ∧ (attributeChangedCallback s name oldVal newVal).vdom = none := by
  unfold attributeChangedCallback
  by_cases hj : jsEq (normalizeVal newVal) oldVal
  · simp [hj, h]
  · simp [hj, h]

/-- On input without ASCII uppercase letters the kebab-case scanner copies
its input: no regex match exists, so the global replace is the identity. -/
theorem kebabGo_no_upper (fuel : Nat) (l : List Char) (first : Bool)
    (hf : l.length ≤ fuel) (h : ∀ c ∈ l, isUpperAZ c = false) :
    kebabGo fuel first l = l := by
  induction fuel generalizing l first with
  | zero =>
    have : l = [] := List.length_eq_zero.mp (Nat.le_zero.mp hf)
    subst this
    rfl
  | succ fuel ih =>
    cases l with
    | nil => rfl
    | cons c cs =>
      have hc : isUpperAZ c = false := h c (List.mem_cons_self c cs)
      simp only [kebabGo, hc, Bool.false_eq_true, if_false]
      rw [ih cs false (Nat.le_of_succ_le_succ hf)
        (fun d hd => h d (List.mem_cons_of_mem c hd))]

/-- Membership in the order-preserving deduplication. -/
theorem mem_uniqFirst (l : List String) (seen : List String) (x : String) :
    x ∈ uniqFirst seen l ↔ x ∈ l ∧ x ∉ seen := by
  induction l generalizing seen with
  | nil => simp [uniqFirst]
  | cons y ys ih =>
    by_cases hy : y ∈ seen
    · simp only [uniqFirst, if_pos hy, ih]
      constructor
      · rintro ⟨hm, hn⟩
        exact ⟨List.mem_cons_of_mem y hm, hn⟩
      · rintro ⟨hm, hn⟩
        rcases List.mem_cons.mp hm with he | hm2
        · exact absurd (he ▸ hy) hn
        · exact ⟨hm2, hn⟩
    · simp only [uniqFirst, if_neg hy, List.mem_cons, ih]
      constructor
      · rintro (he | ⟨hm, hn⟩)
        · subst he
          exact ⟨Or.inl rfl, hy⟩
        · refine ⟨Or.inr hm, fun hsx => hn (Or.inr hsx)⟩
      · rintro ⟨hm, hn⟩
        rcases hm with he | hm2
        · exact Or.inl he
        · by_cases hxy : x = y
          · exact Or.inl hxy
          · exact Or.inr ⟨hm2, fun hsx => by
              rcases hsx with he2 | hs2
              · exact hxy he2
              · exact hn hs2⟩

/-- The order-preserving deduplication produces a duplicate-free list. -/
theorem nodup_uniqFirst (l : List String) (seen : List String) :
    (uniqFirst seen l).Nodup := by
  induction l generalizing seen with
  | nil => simp [uniqFirst]
  | cons y ys ih =>
    by_cases hy : y ∈ seen
    · simpa [uniqFirst, hy] using ih seen
    · simp only [uniqFirst, if_neg hy, List.nodup_cons]
      refine ⟨fun hm => ?_, ih (y :: seen)⟩
      exact ((mem_uniqFirst ys (y :: seen) y).mp hm).2 (List.mem_cons_self y seen)

/-- C9 (amended): toHyphenated (toKebabCase) is a pure total function on
strings; at each ASCII-uppercase match (an uppercase run not followed by a
lowercase letter, or a single uppercase letter) it lower-cases the match and
inserts a hyphen before it except when the match starts the string; in
particular toKebabCase of onClick is on-click and toKebabCase of URLValue
is url-value (not -u-r-l-value: runs stay together and no hyphen is
inserted at offset 0); every string without ASCII uppercase letters is
returned unchanged. -/
theorem c9_toHyphenated_amended :
    toKebabCase "onClick" = "on-click"
    ∧ toKebabCase "URLValue" = "url-value"
    ∧ ∀ s : String, (∀ c ∈ s.data, isUpperAZ c = false) → toKebabCase s = s := by
  refine ⟨by decide, by decide, fun s h => ?_⟩
  unfold toKebabCase
  rw [kebabGo_no_upper s.data.length s.data true (Nat.le_refl _) h]

/-- C9 counterexample: the claimed value of toHyphenated at URLValue is
wrong on the code; the regex replacer receives the match offset (there is
no capture group), so no hyphen appears at position 0 and the uppercase run
URL is matched as one unit. -/
theorem c9_cex : toKebabCase "URLValue" ≠ "-u-r-l-value" := by decide

/-- C9 witness: a string with no uppercase letters is returned unchanged. -/
theorem c9_witness : toKebabCase "plain" = "plain" :=
  c9_toHyphenated_amended.2.2 "plain" (by decide)

/-- C8: disconnecting clears the props and slots records, renders the null
tree into the render root (logged as none) and clears the stored tree. -/
theorem c8_disconnect_clears (s : ElementState) :
    (disconnectedCallback s).props = [] ∧ (disconnectedCallback s).slots = []
    ∧ (disconnectedCallback s).renderLog = s.renderLog ++ [none]
    ∧ (disconnectedCallback s).vdom = none :=
  ⟨rfl, rfl, rfl, rfl⟩

/-- C10: writing null to the accessor of a name whose stored value is
absent (or undefined) is a no-op: the stored value coalesces to null, the
strict-equality guard fires, so no attribute is set and no attribute-changed
handling runs. -/
theorem c10_null_write_noop (s : ElementState) (name : String)
    (h : getKey s.props name = none ∨ getKey s.props name = some .vUndefined) :
    setProperty s name .vNull = s := by
  unfold setProperty
  rcases h with h | h <;> simp [h, coalesceNull, isPrimitive, jsEq]

/-- C10 witness: writing null on a fresh element leaves it unchanged. -/
theorem c10_witness : setProperty freshEl "size" JSVal.vNull = freshEl :=
  c10_null_write_noop freshEl "size" (Or.inl rfl)

/-- C5: at registration the effective recognized-name set is exactly the
union of the camel-case and kebab-case forms of the supplied names, the
observed-attribute list is exactly the deduplicated kebab-case forms of
those names, and every attribute-changed update that stores (normalized
new value different from the old value) stores under both the camel-case
form of the delivered name and the delivered name itself, so both casing
variants resolve to the same stored value. -/
theorem c5_registration_names :
    (∀ supplied : List String, ∀ n,
        n ∈ effectivePropNames supplied
          ↔ ∃ p ∈ supplied, n = toCamelCase p ∨ n = toKebabCase p)
    ∧ (∀ supplied : List String, ∀ a,
        a ∈ observedAttributes supplied
          ↔ ∃ n ∈ effectivePropNames supplied, a = toKebabCase n)
    ∧ (∀ supplied : List String, (observedAttributes supplied).Nodup)
    ∧ (∀ s name oldVal newVal, jsEq (normalizeVal newVal) oldVal = false →
        getKey (attributeChangedCallback s name oldVal newVal).props (toCamelCase name)
            = some (normalizeVal newVal)
        ∧ getKey (attributeChangedCallback s name oldVal newVal).props name
            = some (normalizeVal newVal)) := by
  refine ⟨fun supplied n => ?_, fun supplied a => ?_, fun supplied => nodup_uniqFirst _ _,
    fun s name oldVal newVal h => attributeChangedCallback_stores s name oldVal newVal h⟩
  · rw [effectivePropNames, mem_uniqFirst]
    constructor
    · rintro ⟨hm, -⟩
      rcases List.mem_append.mp hm with hm2 | hm2
      · rcases List.mem_map.mp hm2 with ⟨p, hp, he⟩
        exact ⟨p, hp, Or.inl he.symm⟩
      · rcases List.mem_map.mp hm2 with ⟨p, hp, he⟩
        exact ⟨p, hp, Or.inr he.symm⟩
    · rintro ⟨p, hp, he | he⟩
      · exact ⟨List.mem_append.mpr (Or.inl (List.mem_map.mpr ⟨p, hp, he.symm⟩)),
          List.not_mem_nil n⟩
      · exact ⟨List.mem_append.mpr (Or.inr (List.mem_map.mpr ⟨p, hp, he.symm⟩)),
          List.not_mem_nil n⟩
  · rw [observedAttributes, mem_uniqFirst]
    constructor
    · rintro ⟨hm, -⟩
      rcases List.mem_map.mp hm with ⟨p, hp, he⟩
      exact ⟨p, hp, he.symm⟩
    · rintro ⟨p, hp, he⟩
      exact ⟨List.mem_map.mpr ⟨p, hp, he.symm⟩, List.not_mem_nil a⟩

/-- C5 witness: the attribute-changed store of the registration invariant
at a concrete update: the value lands under both customDate and
custom-date. -/
theorem c5_witness :
    getKey (attributeChangedCallback freshEl "custom-date" JSVal.vNull
        (JSVal.vStr "x")).props (toCamelCase "custom-date") = some (JSVal.vStr "x")
    ∧ getKey (attributeChangedCallback freshEl "custom-date" JSVal.vNull
        (JSVal.vStr "x")).props "custom-date" = some (JSVal.vStr "x") :=
  c5_registration_names.2.2.2 freshEl "custom-date" JSVal.vNull (JSVal.vStr "x")
    (by decide)

/-- C4: the context-request signal is synthesized cancelable, bubbling and
composed (shadow piercing) with an empty mutable payload; dispatched along
the ancestor chain of the render root, the nearest ancestor with a
registered Slot listener stops further propagation and writes its context
into the payload, so the connecting instance reads that ancestor's context
(the stored tree wraps the component in a ContextProvider carrying it);
with no listener anywhere the discovered context is undefined. -/
theorem c4_context_bridge :
    (ctxEventInit.cancelable = true ∧ ctxEventInit.bubbles = true
      ∧ ctxEventInit.composed = true ∧ ctxEventInit.detailContext = none)
    ∧ (∀ pre ctx post, (∀ x ∈ pre, x = none) →
        connectedContext (pre ++ some ctx :: post) = ctx)
    ∧ (∀ chain, (∀ x ∈ chain, x = none) → connectedContext chain = .vUndefined)
    ∧ (∀ s childNodes chain, (connectedCallback s childNodes chain).vdom
        = some (.vprovider (connectedContext chain)
            (.vcomponent (mergeRecords s.props (slotsRecord childNodes))))) := by
  refine ⟨⟨rfl, rfl, rfl, rfl⟩, fun pre ctx post h => ?_, fun chain h => ?_,
    fun s childNodes chain => rfl⟩
  · induction pre with
    | nil => rfl
    | cons x xs ih =>
      have hx : x = none := h x (List.mem_cons_self x xs)
      subst hx
      exact ih (fun y hy => h y (List.mem_cons_of_mem none hy))
  · induction chain with
    | nil => rfl
    | cons x xs ih =>
      have hx : x = none := h x (List.mem_cons_self x xs)
      subst hx
      exact ih (fun y hy => h y (List.mem_cons_of_mem none hy))

/-- C4 witness: with one non-listening ancestor below a listening ancestor
holding the context dark, dispatch discovers dark regardless of what sits
above; with no listener the context is undefined. -/
theorem c4_witness :
    connectedContext [none, some (JSVal.vStr "dark"), some (JSVal.vStr "light")]
        = JSVal.vStr "dark"
    ∧ connectedContext [none, none] = JSVal.vUndefined :=
  ⟨c4_context_bridge.2.1 [none] (JSVal.vStr "dark") [some (JSVal.vStr "light")]
      (by simp),
    c4_context_bridge.2.2.1 [none, none] (by simp)⟩

/-- C6 (amended): setting the accessor property to a value strictly equal
to its currently stored value is a no-op (state unchanged, no render),
provided the value is not undefined: the setter compares against the stored
value coalesced to null, so writing undefined over an undefined stored
value instead sets the attribute to the string form of undefined; setting
an observed attribute to its current string value is always a no-op. -/
theorem c6_same_value_noop_amended :
    (∀ s name v, jsEq v (getProperty s name) = true → v ≠ JSVal.vUndefined →
      setProperty s name v = s)
    ∧ (∀ s a x, getAttr s.attrs a = some x → platformSetAttribute s a x = s) := by
  constructor
  · intro s name v hj hne
    unfold setProperty
    unfold getProperty at hj
    rcases hk : getKey s.props name with _ | w
    · rw [hk] at hj
      cases v <;> simp_all [jsEq]
    · cases v <;> cases w <;>
        simp_all [jsEq, coalesceNull, isPrimitive, attributeChangedCallback,
          normalizeVal]
  · intro s a x h
    unfold platformSetAttribute
    rw [h, setAttr_self_of_getAttr s.attrs a x h]
    have : { s with attrs := s.attrs } = s := rfl
    rw [this]
    exact attributeChangedCallback_noop s a (JSVal.vStr x) (JSVal.vStr x)
      (by simp [normalizeVal, jsEq])

/-- C6 counterexample: on a fresh element the stored value for size is
undefined; writing the strictly equal value undefined is not a no-op — the
previous value coalesces to null, the guard fails, and the attribute is set
to the string form of undefined, which the notification then stores. -/
theorem c6_cex :
    getProperty freshEl "size" = JSVal.vUndefined
    ∧ getProperty (setProperty freshEl "size" JSVal.vUndefined) "size"
        = JSVal.vStr "undefined"
    ∧ getAttr (setProperty freshEl "size" JSVal.vUndefined).attrs "size"
        = some "undefined" :=
  ⟨rfl, rfl, rfl⟩

/-- C6 witness: rewriting the stored string and rewriting the current
attribute value are both no-ops on a concrete element. -/
theorem c6_witness :
    setProperty (platformSetAttribute freshEl "text" "a") "text" (JSVal.vStr "a")
        = platformSetAttribute freshEl "text" "a"
    ∧ platformSetAttribute (platformSetAttribute freshEl "text" "a") "text" "a"
        = platformSetAttribute freshEl "text" "a" :=
  ⟨c6_same_value_noop_amended.1 (platformSetAttribute freshEl "text" "a") "text"
      (JSVal.vStr "a") (by decide) (fun h => JSVal.noConfusion h),
    c6_same_value_noop_amended.2 (platformSetAttribute freshEl "text" "a") "text" "a"
      (by decide)⟩

/-- C7 (amended): an attribute-changed notification delivered to an
instance that has never rendered (no stored tree) never renders and leaves
the tree absent; the normalized new value is stored under both casing
forms provided it differs (strict equality) from the notification's old
value — when they coincide the callback returns before storing. -/
theorem c7_preconnect_amended (s : ElementState) (name : String)
    (oldVal newVal : JSVal) (h : s.vdom = none) :
    (attributeChangedCallback s name oldVal newVal).renderLog = s.renderLog
    ∧ (attributeChangedCallback s name oldVal newVal).vdom = none
    ∧ (jsEq (normalizeVal newVal) oldVal = false →
        getKey (attributeChangedCallback s name oldVal newVal).props
            (toCamelCase name) = some (normalizeVal newVal)
        ∧ getKey (attributeChangedCallback s name oldVal newVal).props name
            = some (normalizeVal newVal)) :=
  ⟨(attributeChangedCallback_preconnect s name oldVal newVal h).1,
    (attributeChangedCallback_preconnect s name oldVal newVal h).2,
    fun hj => attributeChangedCallback_stores s name oldVal newVal hj⟩

/-- C7 witness: a first notification on a fresh element stores the value
and does not render. -/
theorem c7_witness :
    (attributeChangedCallback freshEl "time" JSVal.vNull (JSVal.vStr "x")).renderLog
        = freshEl.renderLog
    ∧ getKey (attributeChangedCallback freshEl "time" JSVal.vNull
        (JSVal.vStr "x")).props "time" = some (normalizeVal (JSVal.vStr "x")) :=
  ⟨(c7_preconnect_amended freshEl "time" JSVal.vNull (JSVal.vStr "x") rfl).1,
    ((c7_preconnect_amended freshEl "time" JSVal.vNull (JSVal.vStr "x") rfl).2.2
      (by decide)).2⟩

/-- C7 counterexample: set the time attribute to x, overwrite the property
with a non-primitive (which stores directly without touching the
attribute), then set the attribute to x again.  The notification arrives on
a never-rendered instance with old value x equal to new value x, so the
callback returns without storing: the props still hold the object, not the
delivered new value — refuting that every pre-connection notification
stores the new value under both casing forms. -/
theorem c7_cex :
    (platformSetAttribute (setProperty (platformSetAttribute freshEl "time" "x")
        "time" (JSVal.vObj 0)) "time" "x").vdom = none
    ∧ (platformSetAttribute (setProperty (platformSetAttribute freshEl "time" "x")
        "time" (JSVal.vObj 0)) "time" "x").renderLog = []
    ∧ getProperty (platformSetAttribute (setProperty (platformSetAttribute freshEl
        "time" "x") "time" (JSVal.vObj 0)) "time" "x") "time" = JSVal.vObj 0
    ∧ jsEq (getProperty (platformSetAttribute (setProperty (platformSetAttribute
        freshEl "time" "x") "time" (JSVal.vObj 0)) "time" "x") "time")
        (JSVal.vStr "x") = false :=
  ⟨rfl, rfl, rfl, rfl⟩

/-- C2 (amended): reading the generated accessor returns the stored value
(undefined when absent); writing a primitive value is a no-op when it
strictly equals the stored value coalesced to null, and otherwise reflects
the string form to the kebab-case attribute, deferring the props update to
the platform's attribute-changed notification (the whole write equals the
platform setAttribute path); writing a non-primitive value invokes the
attribute-changed handling directly with the kebab-case name and never
touches the attribute table. -/
theorem c2_accessor_amended :
    (∀ s name, getProperty s name = (getKey s.props name).getD JSVal.vUndefined)
    ∧ (∀ s name v, isPrimitive v = true →
        jsEq (coalesceNull (getKey s.props name)) v = true →
        setProperty s name v = s)
    ∧ (∀ s name v, isPrimitive v = true →
        jsEq (coalesceNull (getKey s.props name)) v = false →
        setProperty s name v
            = platformSetAttribute s (toKebabCase name) (jsToString v)
        ∧ getAttr (setProperty s name v).attrs (toKebabCase name)
            = some (jsToString v))
    ∧ (∀ s name v, isPrimitive v = false →
        setProperty s name v
            = attributeChangedCallback s (toKebabCase name)
                (coalesceNull (getKey s.props name)) v
        ∧ (setProperty s name v).attrs = s.attrs) := by
  refine ⟨fun s name => rfl, fun s name v h1 h2 => ?_, fun s name v h1 h2 => ?_,
    fun s name v h1 => ?_⟩
  · simp [setProperty, h1, h2]
  · have he : setProperty s name v
        = platformSetAttribute s (toKebabCase name) (jsToString v) := by
      simp [setProperty, h1, h2]
    refine ⟨he, ?_⟩
    rw [he]
    unfold platformSetAttribute
    rw [attributeChangedCallback_attrs]
    exact getAttr_setAttr_self s.attrs (toKebabCase name) (jsToString v)
  · have he : setProperty s name v
        = attributeChangedCallback s (toKebabCase name)
            (coalesceNull (getKey s.props name)) v := by
      simp [setProperty, h1]
    refine ⟨he, ?_⟩
    rw [he]
    exact attributeChangedCallback_attrs s (toKebabCase name)
      (coalesceNull (getKey s.props name)) v

/-- C2 witness: writing the boolean true over an unset name goes through
the attribute-reflection path and the attribute ends up holding its string
form. -/
theorem c2_witness :
    setProperty freshEl "size" (JSVal.vBool true)
        = platformSetAttribute freshEl (toKebabCase "size")
            (jsToString (JSVal.vBool true))
    ∧ getAttr (setProperty freshEl "size" (JSVal.vBool true)).attrs
        (toKebabCase "size") = some (jsToString (JSVal.vBool true)) :=
  c2_accessor_amended.2.2.1 freshEl "size" (JSVal.vBool true) (by decide) (by decide)

/-- C2 counterexample: on a fresh element the stored value for size is
undefined; writing undefined — a value identical to the previously stored
value — still sets the attribute, because the comparison is against the
stored value coalesced to null, refuting that the attribute is set only
when the written value differs from the previously stored value. -/
theorem c2_cex :
    getProperty freshEl "size" = JSVal.vUndefined
    ∧ getAttr freshEl.attrs "size" = none
    ∧ getAttr (setProperty freshEl "size" JSVal.vUndefined).attrs "size"
        = some "undefined" :=
  ⟨rfl, rfl, rfl⟩

/-- Decides whether a value is a string, boolean or number (the primitive
kinds that C1 quantifies over, excluding null and undefined). -/
def isStrBoolNum : JSVal → Bool
  | .vStr _ => true
  | .vBool _ => true
  | .vNum _ => true
  | _ => false

/-- Reading either of the two keys written by the double store of the
attribute-changed path over an empty record returns the stored value. -/
theorem getKey_double_write (a b x : String) (v : JSVal) (h : x = a ∨ x = b) :
    getKey (setKey (setKey [] a v) b v) x = some v := by
  by_cases hab : a = b
  · subst hab
    rcases h with h | h <;> subst h <;> simp [setKey, getKey]
  · rcases h with h | h <;> subst h <;> simp [setKey, getKey, hab]

/-- Setting an observed attribute on a fresh element stores the delivered
string under both casing forms of the attribute name and records the
attribute, so reading any name equal to one of the two stored keys returns
the string. -/
theorem c1_core (name str : String)
    (hn : toCamelCase (toKebabCase name) = name ∨ toKebabCase name = name) :
    getProperty (platformSetAttribute freshEl (toKebabCase name) str) name
        = JSVal.vStr str
    ∧ getAttr (platformSetAttribute freshEl (toKebabCase name) str).attrs
        (toKebabCase name) = some str := by
  have hacc : platformSetAttribute freshEl (toKebabCase name) str
      = { props := setKey (setKey [] (toCamelCase (toKebabCase name))
              (JSVal.vStr str)) (toKebabCase name) (JSVal.vStr str),
          slots := [], attrs := [(toKebabCase name, str)], vdom := none,
          renderLog := [] } := by
    unfold platformSetAttribute attributeChangedCallback
    simp [freshEl, getAttr, setAttr, normalizeVal, jsEq]
  rw [hacc]
  constructor
  · unfold getProperty
    rcases hn with h | h
    · rw [getKey_double_write _ _ name (JSVal.vStr str) (Or.inl h.symm)]
      rfl
    · rw [getKey_double_write _ _ name (JSVal.vStr str) (Or.inr h.symm)]
      rfl
  · simp [getAttr]

/-- C1 (amended): on a freshly constructed element, for a recognized name
that is kebab-case or is the camel-case form of its own kebab-case form
(true of all ordinary names), writing a string, boolean or number V to the
accessor and then reading it back returns the STRING FORM of V (V itself
exactly when V is a string), and the kebab-case attribute holds the string
form of V: the write reflects to the attribute and the value read back is
whatever the attribute-changed notification stored, which is the attribute
string. -/
theorem c1_write_read_amended (name : String) (v : JSVal)
    (hv : isStrBoolNum v = true)
    (hn : toCamelCase (toKebabCase name) = name ∨ toKebabCase name = name) :
    getProperty (setProperty freshEl name v) name = JSVal.vStr (jsToString v)
    ∧ getAttr (setProperty freshEl name v).attrs (toKebabCase name)
        = some (jsToString v) := by
  have hsp : setProperty freshEl name v
      = platformSetAttribute freshEl (toKebabCase name) (jsToString v) := by
    cases v <;>
      simp_all [isStrBoolNum, setProperty, freshEl, getKey, coalesceNull,
        isPrimitive, jsEq]
  rw [hsp]
  exact c1_core name (jsToString v) hn

/-- C1 witness: writing a string round-trips through the attribute on a
fresh element. -/
theorem c1_witness :
    getProperty (setProperty freshEl "time" (JSVal.vStr "ok")) "time"
        = JSVal.vStr (jsToString (JSVal.vStr "ok"))
    ∧ getAttr (setProperty freshEl "time" (JSVal.vStr "ok")).attrs
        (toKebabCase "time") = some (jsToString (JSVal.vStr "ok")) :=
  c1_write_read_amended "time" (JSVal.vStr "ok") (by decide) (Or.inr (by decide))

/-- C1 counterexample: writing the number 5 and reading back returns the
string form, not the number itself — the read value is what the
attribute-changed notification stored, namely the attribute string — while
the attribute does hold the string form as claimed. -/
theorem c1_cex :
    getProperty (setProperty freshEl "time" (JSVal.vNum 5)) "time" = JSVal.vStr "5"
    ∧ jsEq (getProperty (setProperty freshEl "time" (JSVal.vNum 5)) "time")
        (JSVal.vNum 5) = false
    ∧ getAttr (setProperty freshEl "time" (JSVal.vNum 5)).attrs "time" = some "5" :=
  ⟨rfl, rfl, rfl⟩

/-- Specification-side description of one slot group: the placeholders of
the qualifying children whose slot key equals the given key, one per child,
in document order. -/
def slotGroup (cs : List DomNode) (k : String) : List VTree :=
  (cs.filter (fun c => isDomElement c && decide (slotKeyOf c = k))).map slotPlaceholder

/-- A possibly absent group: a group with no children is absent from the
group table. -/
def groupOpt : List VTree → Option (List VTree)
  | [] => none
  | l => some l

/-- Total number of placeholders across all groups. -/
def groupsTotal (m : List (String × List VTree)) : Nat :=
  (m.map (fun p => p.2.length)).sum

/-- Appending to a group makes its lookup the extended group. -/
theorem lookupGroup_addSlot_self (m : List (String × List VTree)) (k : String)
    (v : VTree) :
    lookupGroup (addSlot m k v) k = some ((lookupGroup m k).getD [] ++ [v]) := by
  induction m with
  | nil => simp [addSlot, lookupGroup]
  | cons p rest ih =>
    by_cases h : p.1 = k
    · simp [addSlot, lookupGroup, h]
    · simp [addSlot, lookupGroup, h, ih]

/-- Appending to one group leaves every other group's lookup unchanged. -/
theorem lookupGroup_addSlot_ne (m : List (String × List VTree)) (k k2 : String)
    (v : VTree) (h : k ≠ k2) :
    lookupGroup (addSlot m k v) k2 = lookupGroup m k2 := by
  induction m with
  | nil => simp [addSlot, lookupGroup, h]
  | cons p rest ih =>
    by_cases hp : p.1 = k
    · simp [addSlot, lookupGroup, hp, h]
    · simp [addSlot, lookupGroup, hp, ih]

/-- The slot-group accumulator extends a present group by the placeholders
of the remaining children with that key, in document order. -/
theorem getSlotsGo_lookup_some (cs : List DomNode)
    (acc : List (String × List VTree)) (k : String) (g : List VTree)
    (h : lookupGroup acc k = some g) :
    lookupGroup (getSlotsGo acc cs) k = some (g ++ slotGroup cs k) := by
  induction cs generalizing acc g with
  | nil => simpa [getSlotsGo, slotGroup]
  | cons c cs ih =>
    by_cases hd : isDomElement c
    · by_cases hk : slotKeyOf c = k
      · have hl : lookupGroup (addSlot acc k (slotPlaceholder c)) k
            = some (g ++ [slotPlaceholder c]) := by
          rw [lookupGroup_addSlot_self, h]
          rfl
        rw [show getSlotsGo acc (c :: cs) = getSlotsGo (addSlot acc (slotKeyOf c)
            (slotPlaceholder c)) cs from by simp [getSlotsGo, hd], hk]
        rw [ih (addSlot acc k (slotPlaceholder c)) (g ++ [slotPlaceholder c]) hl]
        have hg : slotGroup (c :: cs) k = slotPlaceholder c :: slotGroup cs k := by
          simp [slotGroup, List.filter_cons, hd, hk]
        rw [hg, List.append_assoc]
        rfl
      · rw [show getSlotsGo acc (c :: cs) = getSlotsGo (addSlot acc (slotKeyOf c)
            (slotPlaceholder c)) cs from by simp [getSlotsGo, hd]]
        have hl : lookupGroup (addSlot acc (slotKeyOf c) (slotPlaceholder c)) k
            = some g := by rw [lookupGroup_addSlot_ne _ _ _ _ hk, h]
        rw [ih _ g hl]
        have hg : slotGroup (c :: cs) k = slotGroup cs k := by
          simp [slotGroup, List.filter_cons, hk]
        rw [hg]
    · rw [show getSlotsGo acc (c :: cs) = getSlotsGo acc cs from by
        simp [getSlotsGo, hd]]
      rw [ih acc g h]
      have hg : slotGroup (c :: cs) k = slotGroup cs k := by
        simp [slotGroup, List.filter_cons, hd]
      rw [hg]

/-- The slot-group accumulator creates an absent group exactly from the
placeholders of the children with that key, in document order. -/
theorem getSlotsGo_lookup_none (cs : List DomNode)
    (acc : List (String × List VTree)) (k : String)
    (h : lookupGroup acc k = none) :
    lookupGroup (getSlotsGo acc cs) k = groupOpt (slotGroup cs k) := by
  induction cs generalizing acc with
  | nil => simpa [getSlotsGo, slotGroup, groupOpt]
  | cons c cs ih =>
    by_cases hd : isDomElement c
    · by_cases hk : slotKeyOf c = k
      · have hl : lookupGroup (addSlot acc k (slotPlaceholder c)) k
            = some [slotPlaceholder c] := by
          rw [lookupGroup_addSlot_self, h]
          rfl
        rw [show getSlotsGo acc (c :: cs) = getSlotsGo (addSlot acc (slotKeyOf c)
            (slotPlaceholder c)) cs from by simp [getSlotsGo, hd], hk]
        rw [getSlotsGo_lookup_some cs _ k [slotPlaceholder c] hl]
        have hg : slotGroup (c :: cs) k = slotPlaceholder c :: slotGroup cs k := by
          simp [slotGroup, List.filter_cons, hd, hk]
        rw [hg]
        rfl
      · rw [show getSlotsGo acc (c :: cs) = getSlotsGo (addSlot acc (slotKeyOf c)
            (slotPlaceholder c)) cs from by simp [getSlotsGo, hd]]
        have hl : lookupGroup (addSlot acc (slotKeyOf c) (slotPlaceholder c)) k
            = none := by rw [lookupGroup_addSlot_ne _ _ _ _ hk, h]
        rw [ih _ hl]
        have hg : slotGroup (c :: cs) k = slotGroup cs k := by
          simp [slotGroup, List.filter_cons, hk]
        rw [hg]
    · rw [show getSlotsGo acc (c :: cs) = getSlotsGo acc cs from by
        simp [getSlotsGo, hd]]
      rw [ih acc h]
      have hg : slotGroup (c :: cs) k = slotGroup cs k := by
        simp [slotGroup, List.filter_cons, hd]
      rw [hg]

/-- The group table built by getSlots contains, under each key, exactly the
placeholders of the children with that slot key, in document order (absent
when no child has the key). -/
theorem getSlots_lookup (cs : List DomNode) (k : String) :
    lookupGroup (getSlots cs) k = groupOpt (slotGroup cs k) :=
  getSlotsGo_lookup_none cs [] k rfl

/-- Filing one placeholder grows the total placeholder count by one. -/
theorem groupsTotal_addSlot (m : List (String × List VTree)) (k : String)
    (v : VTree) : groupsTotal (addSlot m k v) = groupsTotal m + 1 := by
  induction m with
  | nil => simp [addSlot, groupsTotal]
  | cons p rest ih =>
    by_cases h : p.1 = k
    · simp [addSlot, groupsTotal, h]
      omega
    · simp only [addSlot, h, if_false, groupsTotal, List.map_cons, List.sum_cons]
      simp only [groupsTotal] at ih
      omega

/-- The accumulator files exactly one placeholder per qualifying child. -/
theorem groupsTotal_getSlotsGo (cs : List DomNode)
    (acc : List (String × List VTree)) :
    groupsTotal (getSlotsGo acc cs)
      = groupsTotal acc + (cs.filter (fun c => isDomElement c)).length := by
  induction cs generalizing acc with
  | nil => simp [getSlotsGo]
  | cons c cs ih =>
    by_cases hd : isDomElement c
    · rw [show getSlotsGo acc (c :: cs) = getSlotsGo (addSlot acc (slotKeyOf c)
          (slotPlaceholder c)) cs from by simp [getSlotsGo, hd]]
      rw [ih, groupsTotal_addSlot]
      simp [List.filter_cons, hd]
      omega
    · rw [show getSlotsGo acc (c :: cs) = getSlotsGo acc cs from by
        simp [getSlotsGo, hd]]
      rw [ih]
      simp [List.filter_cons, hd]

/-- A group key is absent exactly when its lookup fails. -/
theorem lookupGroup_eq_none_iff (m : List (String × List VTree)) (k : String) :
    lookupGroup m k = none ↔ k ∉ m.map (fun p => p.1) := by
  induction m with
  | nil => simp [lookupGroup]
  | cons p rest ih =>
    by_cases h : p.1 = k
    · simp [lookupGroup, h]
    · rw [show lookupGroup (p :: rest) k = lookupGroup rest k from by
        simp [lookupGroup, h]]
      rw [ih]
      simp only [List.map_cons, List.mem_cons]
      constructor
      · intro hn hmem
        rcases hmem with he | hm
        · exact h he.symm
        · exact hn hm
      · intro hn hm
        exact hn (Or.inr hm)

/-- Filing a placeholder adds at most the filed key to the key set. -/
theorem mem_keys_addSlot (m : List (String × List VTree)) (k k0 : String)
    (v : VTree) :
    k0 ∈ (addSlot m k v).map (fun p => p.1)
      ↔ k0 ∈ m.map (fun p => p.1) ∨ k0 = k := by
  induction m with
  | nil => simp [addSlot, eq_comm]
  | cons p rest ih =>
    by_cases h : p.1 = k
    · by_cases h0 : k0 = k
      · simp [addSlot, h, h0]
      · simp [addSlot, h, h0]
    · simp only [addSlot, h, if_false, List.map_cons, List.mem_cons, ih]
      tauto

/-- Filing a placeholder preserves duplicate-freedom of the group keys. -/
theorem nodup_keys_addSlot (m : List (String × List VTree)) (k : String)
    (v : VTree) (h : (m.map (fun p => p.1)).Nodup) :
    ((addSlot m k v).map (fun p => p.1)).Nodup := by
  induction m with
  | nil => simp [addSlot]
  | cons p rest ih =>
    by_cases hp : p.1 = k
    · simpa [addSlot, hp] using h
    · simp only [addSlot, hp, if_false, List.map_cons, List.nodup_cons]
      simp only [List.map_cons, List.nodup_cons] at h
      refine ⟨fun hm => ?_, ih h.2⟩
      rcases (mem_keys_addSlot rest k p.1 v).mp hm with hm2 | hm2
      · exact h.1 hm2
      · exact hp hm2

/-- The group table built by the accumulator has duplicate-free keys. -/
theorem nodup_keys_getSlotsGo (cs : List DomNode)
    (acc : List (String × List VTree))
    (h : (acc.map (fun p => p.1)).Nodup) :
    ((getSlotsGo acc cs).map (fun p => p.1)).Nodup := by
  induction cs generalizing acc with
  | nil => simpa [getSlotsGo]
  | cons c cs ih =>
    by_cases hd : isDomElement c
    · rw [show getSlotsGo acc (c :: cs) = getSlotsGo (addSlot acc (slotKeyOf c)
          (slotPlaceholder c)) cs from by simp [getSlotsGo, hd]]
      exact ih _ (nodup_keys_addSlot acc (slotKeyOf c) (slotPlaceholder c) h)
    · rw [show getSlotsGo acc (c :: cs) = getSlotsGo acc cs from by
        simp [getSlotsGo, hd]]
      exact ih acc h

/-- Spreading a group list over a record leaves keys it does not contain
untouched. -/
theorem getKey_groupFold_not_mem (l : List (String × List VTree))
    (init : List (String × JSVal)) (k : String) (h : ∀ p ∈ l, p.1 ≠ k) :
    getKey (l.foldl (fun m p => setKey m p.1 (.vArr (p.2.map .vVNode))) init) k
      = getKey init k := by
  induction l generalizing init with
  | nil => rfl
  | cons p rest ih =>
    rw [List.foldl_cons, ih _ (fun q hq => h q (List.mem_cons_of_mem p hq))]
    exact getKey_setKey_ne init p.1 k _ (h p (List.mem_cons_self p rest))

/-- Spreading a duplicate-free group list over a record exposes each
contained group under its own key as an array of its placeholders. -/
theorem getKey_groupFold_mem (l : List (String × List VTree))
    (init : List (String × JSVal)) (k : String) (g : List VTree)
    (hnd : (l.map (fun p => p.1)).Nodup) (h : lookupGroup l k = some g) :
    getKey (l.foldl (fun m p => setKey m p.1 (.vArr (p.2.map .vVNode))) init) k
      = some (.vArr (g.map .vVNode)) := by
  induction l generalizing init with
  | nil => simp [lookupGroup] at h
  | cons p rest ih =>
    simp only [List.map_cons, List.nodup_cons] at hnd
    by_cases hp : p.1 = k
    · simp only [lookupGroup, hp, if_pos rfl] at h
      rw [List.foldl_cons]
      have hrest : ∀ q ∈ rest, q.1 ≠ k := by
        intro q hq he
        exact hnd.1 (hp ▸ he ▸ List.mem_map.mpr ⟨q, hq, rfl⟩)
      rw [getKey_groupFold_not_mem rest _ k hrest, hp]
      rw [getKey_setKey_self]
      cases h
      rfl
    · simp only [lookupGroup, hp, if_false] at h
      rw [List.foldl_cons]
      exact ih _ hnd.2 h

/-- Dropping the default group from the table does not affect lookups of
non-empty keys. -/
theorem lookupGroup_filter_ne_empty (g : List (String × List VTree)) (k : String)
    (h : k ≠ "") :
    lookupGroup (g.filter (fun p => p.1 ≠ "")) k = lookupGroup g k := by
  induction g with
  | nil => rfl
  | cons p rest ih =>
    by_cases hp : p.1 = ""
    · have hpk : ¬ p.1 = k := fun he => h (he.symm.trans hp)
      rw [show (p :: rest).filter (fun p => p.1 ≠ "")
          = rest.filter (fun p => p.1 ≠ "") from by simp [List.filter_cons, hp]]
      rw [ih]
      rw [show lookupGroup (p :: rest) k = lookupGroup rest k from by
        simp [lookupGroup, hpk]]
    · rw [show (p :: rest).filter (fun p => p.1 ≠ "")
          = p :: rest.filter (fun p => p.1 ≠ "") from by simp [List.filter_cons, hp]]
      by_cases hpk : p.1 = k
      · rw [show lookupGroup (p :: rest.filter (fun p => p.1 ≠ "")) k
            = some p.2 from by simp [lookupGroup, hpk]]
        rw [show lookupGroup (p :: rest) k = some p.2 from by
          simp [lookupGroup, hpk]]
      · rw [show lookupGroup (p :: rest.filter (fun p => p.1 ≠ "")) k
            = lookupGroup (rest.filter (fun p => p.1 ≠ "")) k from by
          simp [lookupGroup, hpk]]
        rw [ih]
        rw [show lookupGroup (p :: rest) k = lookupGroup rest k from by
          simp [lookupGroup, hpk]]

/-- The group table of getSlots has duplicate-free keys. -/
theorem nodup_keys_getSlots (cs : List DomNode) :
    ((getSlots cs).map (fun p => p.1)).Nodup :=
  nodup_keys_getSlotsGo cs [] (by simp)

/-- Keys stay duplicate-free after dropping the default group. -/
theorem nodup_keys_filter_ne_empty (g : List (String × List VTree))
    (h : (g.map (fun p => p.1)).Nodup) :
    ((g.filter (fun p => p.1 ≠ "")).map (fun p => p.1)).Nodup :=
  List.Nodup.sublist (List.Sublist.map (fun p => p.1) (List.filter_sublist g)) h

/-- C3 (amended): the slot projector produces exactly one placeholder per
child that is a text or element node (all other node kinds ignored), in
document order, grouped by the child's slot key with distinct placeholders
for same-named children; element children with an absent or empty slot
attribute form the empty-string group, which is exposed under the
conventional key children (undefined when that group is absent); text
children, whose slot property is undefined, are grouped under the key
undefined (the string coercion of that property) and exposed as-is, like
every other non-default group key. -/
theorem c3_slot_projection_amended :
    (∀ cs k, lookupGroup (getSlots cs) k = groupOpt (slotGroup cs k))
    ∧ (∀ cs, groupsTotal (getSlots cs)
        = (cs.filter (fun c => isDomElement c)).length)
    ∧ (∀ cs k, k ≠ "" → k ≠ "children" →
        getKey (slotsRecord cs) k
          = (groupOpt (slotGroup cs k)).map (fun l => JSVal.vArr (l.map .vVNode)))
    ∧ (∀ cs, slotGroup cs "children" = [] →
        getKey (slotsRecord cs) "children"
          = some (groupToVal (lookupGroup (getSlots cs) ""))) := by
  refine ⟨getSlots_lookup, fun cs => ?_, fun cs k hk hkc => ?_, fun cs h => ?_⟩
  · have ht := groupsTotal_getSlotsGo cs []
    simpa [getSlots, groupsTotal] using ht
  · have hfil := lookupGroup_filter_ne_empty (getSlots cs) k hk
    have hlk := getSlots_lookup cs k
    rcases hsg : slotGroup cs k with _ | ⟨t, ts⟩
    · have hnone : lookupGroup ((getSlots cs).filter (fun p => p.1 ≠ "")) k
          = none := by
        rw [hfil, hlk, hsg]
        rfl
      have hnm : ∀ p ∈ (getSlots cs).filter (fun p => p.1 ≠ ""), p.1 ≠ k := by
        intro p hp he
        exact (lookupGroup_eq_none_iff _ k).mp hnone (List.mem_map.mpr ⟨p, hp, he⟩)
      rw [show slotsRecord cs = ((getSlots cs).filter (fun p => p.1 ≠ "")).foldl
          (fun m p => setKey m p.1 (.vArr (p.2.map .vVNode)))
          [("children", groupToVal (lookupGroup (getSlots cs) ""))] from rfl]
      rw [getKey_groupFold_not_mem _ _ k hnm]
      have hck : ¬ "children" = k := fun he => hkc he.symm
      rw [show getKey [("children", groupToVal (lookupGroup (getSlots cs) ""))] k
          = none from by simp [getKey, hck]]
      rfl
    · have hsome : lookupGroup ((getSlots cs).filter (fun p => p.1 ≠ "")) k
          = some (t :: ts) := by
        rw [hfil, hlk, hsg]
        rfl
      have hnd := nodup_keys_filter_ne_empty (getSlots cs) (nodup_keys_getSlots cs)
      rw [show slotsRecord cs = ((getSlots cs).filter (fun p => p.1 ≠ "")).foldl
          (fun m p => setKey m p.1 (.vArr (p.2.map .vVNode)))
          [("children", groupToVal (lookupGroup (getSlots cs) ""))] from rfl]
      rw [getKey_groupFold_mem _ _ k (t :: ts) hnd hsome]
      rfl
  · have hg : lookupGroup (getSlots cs) "children" = none := by
      rw [getSlots_lookup, h]
      rfl
    have hfil : lookupGroup ((getSlots cs).filter (fun p => p.1 ≠ "")) "children"
        = none := by
      rw [lookupGroup_filter_ne_empty _ _ (by decide), hg]
    have hnm : ∀ p ∈ (getSlots cs).filter (fun p => p.1 ≠ ""),
        p.1 ≠ "children" := by
      intro p hp he
      exact (lookupGroup_eq_none_iff _ _).mp hfil (List.mem_map.mpr ⟨p, hp, he⟩)
    rw [show slotsRecord cs = ((getSlots cs).filter (fun p => p.1 ≠ "")).foldl
        (fun m p => setKey m p.1 (.vArr (p.2.map .vVNode)))
        [("children", groupToVal (lookupGroup (getSlots cs) ""))] from rfl]
    rw [getKey_groupFold_not_mem _ _ _ hnm]
    rfl

/-- C3 witness: for a child list with a named element child, a plain
element child, a comment and a text child, the named group is exposed under
its own key and the default group is exposed under children. -/
theorem c3_witness :
    getKey (slotsRecord [DomNode.element "SPAN" [("slot", "text")] [],
        DomNode.element "DIV" [] [], DomNode.other, DomNode.text "t"]) "text"
      = (groupOpt (slotGroup [DomNode.element "SPAN" [("slot", "text")] [],
          DomNode.element "DIV" [] [], DomNode.other, DomNode.text "t"]
          "text")).map (fun l => JSVal.vArr (l.map .vVNode))
    ∧ getKey (slotsRecord [DomNode.element "SPAN" [("slot", "text")] [],
        DomNode.element "DIV" [] [], DomNode.other, DomNode.text "t"]) "children"
      = some (groupToVal (lookupGroup (getSlots [DomNode.element "SPAN"
          [("slot", "text")] [], DomNode.element "DIV" [] [], DomNode.other,
          DomNode.text "t"]) "")) :=
  ⟨c3_slot_projection_amended.2.2.1 [DomNode.element "SPAN" [("slot", "text")] [],
      DomNode.element "DIV" [] [], DomNode.other, DomNode.text "t"] "text"
      (by decide) (by decide),
    c3_slot_projection_amended.2.2.2 [DomNode.element "SPAN" [("slot", "text")] [],
      DomNode.element "DIV" [] [], DomNode.other, DomNode.text "t"] rfl⟩

/-- C3 counterexample: a lone text child is not exposed under children —
that key holds undefined — because a text node has no slot property and the
undefined key coerces to the string undefined, under which the placeholder
is exposed instead. -/
theorem c3_cex :
    getKey (slotsRecord [DomNode.text "hi"]) "children" = some JSVal.vUndefined
    ∧ getKey (slotsRecord [DomNode.text "hi"]) "undefined"
        = some (JSVal.vArr [JSVal.vVNode (VTree.vslot none)]) :=
  ⟨rfl, rfl⟩
